import Mathlib

/-!
Verification of the SonicScribe session-aware ingestion pipeline
(`src/main.py`, `src/ai_engine.py`, `src/models.py`).

Bytes are modelled as natural numbers below 256 (`List Nat` buffers, with an
explicit validity hypothesis where a theorem needs it).  Machine arithmetic
that Python performs on 4-byte little-endian fields is modelled with explicit
`% 2 ^ 32` truncation.  The mutable SQLAlchemy table `meetings` is modelled as
a `List Meeting` threaded through explicit state-passing functions, one per
endpoint; `uuid.uuid4()` calls are modelled as externally supplied fresh
tokens, and `datetime.utcnow()` as an externally supplied logical clock value.
-/

namespace STT

/-! ## Byte-buffer helpers -/

/-- The 4-byte RIFF magic `b'RIFF'`. -/
def riffMagic : List Nat := [82, 73, 70, 70]

/-- `buf.startswith(b'RIFF')` from the Python source. -/
def startsRIFF (b : List Nat) : Bool := b.take 4 == riffMagic

/-- Little-endian 4-byte encoding, the model of Python
`v.to_bytes(4, 'little')` (truncating at `2 ^ 32`). -/
def leEncode4 (v : Nat) : List Nat :=
  [v % 256, v / 256 % 256, v / 65536 % 256, v / 16777216 % 256]

/-- Little-endian decoding of a 4-byte field, the model of Python
`int.from_bytes(bs, 'little')` for a 4-byte slice. -/
def leDecode4 : List Nat → Nat
  | [a, b, c, d] => a + 256 * b + 65536 * c + 16777216 * d
  | _ => 0

/-! ## Binary header repair

Model of the WAV header patch performed both by `_fix_wav_header`
(`src/ai_engine.py` lines 34–68, on a file) and by the in-memory patch in
`get_audio` (`src/main.py` lines 723–736).  Both read the RIFF chunk size
(bytes 4–8) and the data sub-chunk size (bytes 40–44), compare them with the
values derived from the true total length, and rewrite exactly those two
fields when either is wrong; a buffer that is shorter than 44 bytes or does
not begin with `RIFF` is left untouched. -/

/-- The patched buffer: the original with bytes 4–8 and 40–44 overwritten by
the correct little-endian RIFF and data sizes (`blob_data[:4] +
correct_riff.to_bytes(4,'little') + blob_data[8:40] +
correct_data.to_bytes(4,'little') + blob_data[44:]`). -/
def patchedWav (b : List Nat) : List Nat :=
  b.take 4 ++ leEncode4 (b.length - 8) ++ (b.drop 8).take 32 ++
    leEncode4 (b.length - 44) ++ b.drop 44

def fix_wav_header (b : List Nat) : List Nat :=
  if startsRIFF b ∧ 44 ≤ b.length then
    if leDecode4 ((b.drop 4).take 4) = b.length - 8 ∧
        leDecode4 ((b.drop 40).take 4) = b.length - 44 then
      b
    else patchedWav b
  else b

/-- A concrete 44-byte WAV header with zeroed size fields. -/
def wavExample : List Nat := riffMagic ++ List.replicate 40 0

/-! ## Chunked transfer-encoding normalizer

Model of the "STRIP HTTP CHUNKED TE FRAMING" block of `upload_chunk`
(`src/main.py` lines 489–532).  Detection: the buffer does not start with
`RIFF`, is longer than 4 bytes, the first CRLF occurs at an index in `(0, 8]`,
and the bytes before it parse as a hexadecimal integer via
`int(s.decode('ascii').strip(), 16)`.  If detected, the chunk bodies are
concatenated; a malformed size line mid-stream appends the remainder
verbatim; a zero size ends decoding.  Python slice / `bytes.find` semantics
(including negative-index normalisation) are modelled by `pyStart` /
`pySlice`; the unbounded `while` loop is modelled with fuel
`buf.length + 1`, enough for every execution in which the position
advances. -/

/-- ASCII whitespace stripped by Python `str.strip()`. -/
def isPyWS (c : Nat) : Bool :=
  decide (c = 9 ∨ c = 10 ∨ c = 11 ∨ c = 12 ∨ c = 13 ∨
    c = 28 ∨ c = 29 ∨ c = 30 ∨ c = 31 ∨ c = 32)

def stripPyWS (bs : List Nat) : List Nat :=
  ((bs.dropWhile isPyWS).reverse.dropWhile isPyWS).reverse

def isHexDigitB (c : Nat) : Bool :=
  decide ((48 ≤ c ∧ c ≤ 57) ∨ (65 ≤ c ∧ c ≤ 70) ∨ (97 ≤ c ∧ c ≤ 102))

def hexVal (c : Nat) : Nat :=
  if c ≤ 57 then c - 48 else if c ≤ 70 then c - 55 else c - 87

/-- Hex digits with optional single underscores between digits (Python
integer-literal grammar accepted by `int(s, 16)`). -/
def parseRest (acc : Nat) : List Nat → Option Nat
  | [] => some acc
  | c :: rest =>
    if c = 95 then
      match rest with
      | c2 :: rest2 =>
        if isHexDigitB c2 then parseRest (acc * 16 + hexVal c2) rest2 else none
      | [] => none
    else if isHexDigitB c then parseRest (acc * 16 + hexVal c) rest else none

def parseNum : List Nat → Option Nat
  | c :: rest => if isHexDigitB c then parseRest (hexVal c) rest else none
  | [] => none

/-- Optional `0x` / `0X` prefix, with one optional underscore after it. -/
def parsePrefixed (s : List Nat) : Option Nat :=
  match s with
  | c :: x :: rest =>
    if c = 48 ∧ (x = 120 ∨ x = 88) then
      match rest with
      | r1 :: r2 => if r1 = 95 then parseNum r2 else parseNum (r1 :: r2)
      | [] => none
    else parseNum s
  | _ => parseNum s

/-- Model of `int(bs.decode('ascii').strip(), 16)`, `none` where Python
raises `UnicodeDecodeError` or `ValueError`. -/
def parseHexInt (bs : List Nat) : Option Int :=
  if bs.all (fun c => decide (c < 128)) then
    match stripPyWS bs with
    | c :: r =>
      if c = 43 then (parsePrefixed r).map (fun n => (n : Int))
      else if c = 45 then (parsePrefixed r).map (fun n => -(n : Int))
      else (parsePrefixed (c :: r)).map (fun n => (n : Int))
    | [] => none
  else none

/-- Index of the first `b'\r\n'` in a buffer (`bytes.find`). -/
def findCRLF : List Nat → Option Nat
  | [] => none
  | [_] => none
  | a :: b :: rest =>
    if a = 13 ∧ b = 10 then some 0 else (findCRLF (b :: rest)).map (· + 1)

/-- Python start-index normalisation for `bytes.find(sub, start)` and
slices: a negative index counts from the end, clamped at 0. -/
def pyStart (len : Nat) (i : Int) : Nat :=
  if i < 0 then ((len : Int) + i).toNat else i.toNat

def pyFind (buf : List Nat) (start : Int) : Option Nat :=
  (findCRLF (buf.drop (pyStart buf.length start))).map
    (· + pyStart buf.length start)

/-- Python slice `buf[a:b]` for a non-negative start `a`. -/
def pySlice (buf : List Nat) (a : Nat) (b : Int) : List Nat :=
  (buf.drop a).take (pyStart buf.length b - a)

/-- The `while pos < len(chunk_buffer)` decode loop of `upload_chunk`,
accumulating decoded chunk bodies in `acc`. -/
def decodeLoop (buf : List Nat) : Nat → Int → List Nat → List Nat
  | 0, _, acc => acc
  | fuel + 1, pos, acc =>
    if pos < (buf.length : Int) then
      match pyFind buf pos with
      | none => acc ++ buf.drop (pyStart buf.length pos)
      | some e =>
        match parseHexInt
            ((buf.drop (pyStart buf.length pos)).take
              (e - pyStart buf.length pos)) with
        | none => acc ++ buf.drop (pyStart buf.length pos)
        | some csz =>
          if csz = 0 then acc
          else
            let ds := e + 2
            let de : Int := (ds : Int) + csz
            if de > (buf.length : Int) then acc ++ buf.drop ds
            else decodeLoop buf fuel (de + 2) (acc ++ pySlice buf ds de)
    else acc

/-- The transport normalizer: `chunk_buffer` after the chunked-TE stripping
block of `upload_chunk`. -/
def stripChunkedTE (buf : List Nat) : List Nat :=
  if ¬ startsRIFF buf ∧ 4 < buf.length then
    match pyFind buf 0 with
    | none => buf
    | some fle =>
      if 0 < fle ∧ fle ≤ 8 then
        match parseHexInt (buf.take fle) with
        | none => buf
        | some _ => decodeLoop buf (buf.length + 1) 0 []
      else buf
  else buf

/-- The detection heuristic alone (the buffer would be treated as chunked
framing and decoded). -/
def triggersTE (buf : List Nat) : Bool :=
  if ¬ startsRIFF buf ∧ 4 < buf.length then
    match pyFind buf 0 with
    | none => false
    | some fle =>
      if 0 < fle ∧ fle ≤ 8 then
        match parseHexInt (buf.take fle) with
        | none => false
        | some _ => true
      else false
  else false

/-- The bytes before the first CRLF (the whole buffer if it has none). -/
def firstLine (buf : List Nat) : List Nat :=
  match pyFind buf 0 with
  | some e => buf.take e
  | none => buf

/-! ### Chunked-transfer encoder (from the claim: each chunk is a hex size
line, CRLF, that many bytes, CRLF, terminated by a zero-size chunk). -/

def hexChar (d : Nat) : Nat := if d < 10 then 48 + d else 55 + d

def hexDigitsRev : Nat → List Nat
  | 0 => []
  | n + 1 => hexChar ((n + 1) % 16) :: hexDigitsRev ((n + 1) / 16)
decreasing_by exact Nat.div_lt_self (Nat.succ_pos n) (by norm_num)

/-- Uppercase hexadecimal representation of `n`, most significant digit
first (Python `"%X" % n`). -/
def hexDigits (n : Nat) : List Nat :=
  if n = 0 then [48] else (hexDigitsRev n).reverse

def crlfBytes : List Nat := [13, 10]

def encodeChunk (c : List Nat) : List Nat :=
  hexDigits c.length ++ crlfBytes ++ c ++ crlfBytes

def encodeChunked (chunks : List (List Nat)) : List Nat :=
  (chunks.map encodeChunk).flatten ++ [48] ++ crlfBytes ++ crlfBytes

/-! ## Data model

`models.Meeting` (`src/models.py`): the `meetings` table is modelled as a
`List Meeting` in insertion order.  `upload_timestamp` and
`session_end_timestamp` are a logical clock (`datetime.utcnow()` values
supplied by the caller); `file_size` is a byte count (the `Float` column
holds exact integer byte counts in every code path). -/

structure Meeting where
  id : String
  filename : String
  file_path : String
  status : String
  session_active : Bool
  mac_address : Option String
  device_type : String
  file_size : Nat
  upload_timestamp : Nat
  session_end_timestamp : Option Nat
  transcription_text : Option String
  summary : Option String
  deriving DecidableEq

/-- `db.query(...).filter(p).order_by(Meeting.upload_timestamp.desc()).first()`:
the matching row with the greatest upload timestamp (earlier rows win ties). -/
def queryLatest (p : Meeting → Bool) : List Meeting → Option Meeting
  | [] => none
  | m :: rest =>
    match queryLatest p rest with
    | none => if p m then some m else none
    | some b =>
      if p m then
        if b.upload_timestamp > m.upload_timestamp then some b else some m
      else some b

/-- In-place mutation of the row with the given primary key. -/
def updateById (mid : String) (f : Meeting → Meeting) (db : List Meeting) :
    List Meeting :=
  db.map (fun m => if m.id = mid then f m else m)

/-! ## Session resolution and chunk upload (`upload_chunk`, lines 400–622) -/

/-- Python truthiness of the `mac_address` query parameter. -/
def macPresent : Option String → Bool
  | none => false
  | some s => s != ""

/-- The active-session query of the live path (lines 426–431) and of
`end_session_by_mac` (lines 987–992). -/
def livePred (mac : Option String) (m : Meeting) : Bool :=
  m.mac_address == mac && m.status == "processing" &&
    m.device_type == "mic" && m.session_active

structure ResolveOut where
  db : List Meeting
  meeting? : Option Meeting
  existing_session : Bool
  blob_name : String
  filename : String
  deriving DecidableEq

/-- The Meeting row created by the new-session path (lines 444–456). -/
def newLiveMeeting (mac : Option String) (freshId freshTok : String)
    (now : Nat) : Meeting :=
  { id := freshId, filename := "live_stream_" ++ freshTok ++ ".wav",
    file_path := "live_stream_" ++ freshTok ++ ".wav", status := "processing",
    session_active := true, mac_address := mac, device_type := "mic",
    file_size := 0, upload_timestamp := now, session_end_timestamp := none,
    transcription_text := none, summary := none }

/-- Lines 418–464 of `upload_chunk`: find or create the session row before
any byte is read or written.  `freshId`/`freshTok` model the two
`uuid.uuid4()` calls of the new-session path; `now` the row's
`server_default` timestamp. -/
def resolveSession (db : List Meeting) (filename : String) (mac : Option String)
    (freshId freshTok : String) (now : Nat) : ResolveOut :=
  if filename = "live.wav" ∧ macPresent mac then
    match queryLatest (livePred mac) db with
    | some m => ⟨db, some m, true, m.filename, filename⟩
    | none =>
      ⟨db ++ [newLiveMeeting mac freshId freshTok now],
       some (newLiveMeeting mac freshId freshTok now),
       false, "live_stream_" ++ freshTok ++ ".wav", filename⟩
  else if filename = "cam_capture.jpg" then
    ⟨db, none, false, "capture_" ++ freshTok ++ ".jpg", filename⟩
  else
    let fn := if filename.endsWith ".wav" then filename else filename ++ ".wav"
    ⟨db, none, false, fn, fn⟩

/-- Header-skip logic (lines 534–539): when appending to an existing session,
a chunk strictly longer than 44 bytes that starts with `RIFF` has exactly its
first 44 bytes stripped. -/
def dataToWrite (existing_session : Bool) (chunk : List Nat) : List Nat :=
  if existing_session ∧ 44 < chunk.length ∧ startsRIFF chunk then chunk.drop 44
  else chunk

/-- Lines 415–416: a missing (or empty, hence falsy) `filename` query
parameter is replaced by a generated one. -/
def effectiveFilename (filename0 : Option String) (freshTok2 : String) : String :=
  match filename0 with
  | none => "unknown_" ++ freshTok2 ++ ".wav"
  | some f => if f = "" then "unknown_" ++ freshTok2 ++ ".wav" else f

/-- The body-processing phase of `upload_chunk` (after the filename default):
empty body returns early (before the session row update); otherwise the body
is transport-normalized, the header skip is applied, and either the resolved
session row is updated (`file_size += len(data_to_write)`,
`upload_timestamp = now`) or a fresh non-live row is inserted with the
column default `session_active = True`. -/
def upload_chunk_body (db : List Meeting) (filename : String)
    (mac : Option String) (body : List Nat) (freshId freshTok freshId2 : String)
    (now : Nat) : List Meeting :=
  let r := resolveSession db filename mac freshId freshTok now
  if body.length = 0 then r.db
  else
    let buf := stripChunkedTE body
    let data := dataToWrite r.existing_session buf
    if data.length = 0 then r.db
    else
      match r.meeting? with
      | some m =>
        updateById m.id (fun x =>
          { x with file_size := x.file_size + data.length,
                   upload_timestamp := now }) r.db
      | none =>
        let nm : Meeting :=
          { id := freshId2, filename := r.filename, file_path := r.blob_name,
            status := "processing", session_active := true, mac_address := mac,
            device_type := "mic", file_size := buf.length,
            upload_timestamp := now, session_end_timestamp := none,
            transcription_text := none, summary := none }
        r.db ++ [nm]

def upload_chunk (db : List Meeting) (filename0 : Option String)
    (mac : Option String) (body : List Nat)
    (freshId freshTok freshId2 freshTok2 : String) (now : Nat) : List Meeting :=
  upload_chunk_body db (effectiveFilename filename0 freshTok2) mac body
    freshId freshTok freshId2 now

/-! ## Session lifecycle endpoints -/

/-- `end_session` (lines 955–979): finalize by Recording id.  Returns the
updated table and the error detail when rejected. -/
def end_session (db : List Meeting) (meeting_id : String) (now : Nat) :
    List Meeting × Option String :=
  match db.find? (fun m => m.id == meeting_id) with
  | none => (db, some "Meeting not found")
  | some _ =>
    (updateById meeting_id (fun m =>
      { m with session_active := false, session_end_timestamp := some now }) db,
     none)

/-- `end_session_by_mac` (lines 981–1009): finalize the active session of a
device. -/
def end_session_by_mac (db : List Meeting) (mac : String) (now : Nat) :
    List Meeting × Option String :=
  match queryLatest (livePred (some mac)) db with
  | none => (db, some "No active session found for this MAC")
  | some m =>
    (updateById m.id (fun x =>
      { x with session_active := false, session_end_timestamp := some now }) db,
     none)

/-- `reprocess_meeting` (lines 936–953). -/
def reprocess_meeting (db : List Meeting) (meeting_id : String) :
    List Meeting × Option (Nat × String) :=
  match db.find? (fun m => m.id == meeting_id) with
  | none => (db, some (404, "Meeting not found"))
  | some m =>
    if m.status = "completed" then (db, some (400, "Meeting already completed"))
    else
      (updateById meeting_id (fun x =>
        { x with status := "processing", session_active := false }) db, none)

/-- `requeue_stuck_meetings` (lines 193–226): at boot, every `processing` row
gets `session_active := False`, and `process_meeting` is re-invoked once per
stuck row (second component: the re-queued ids, in table order). -/
def requeue_stuck_meetings (db : List Meeting) : List Meeting × List String :=
  (db.map (fun m =>
     if m.status = "processing" then { m with session_active := false } else m),
   (db.filter (fun m => m.status == "processing")).map (fun m => m.id))

/-- The linking step of `upload_image` (lines 890–920): the capture joins the
most recent active processing mic session, else any processing mic session
from the last 5 minutes (300 s), else `"unassigned"`.  The camera's own
identifiers play no part in either query. -/
def upload_image_link (db : List Meeting) (now : Nat) : String :=
  match queryLatest (fun m =>
      m.session_active && m.status == "processing" && m.device_type == "mic") db with
  | some m => m.id
  | none =>
    match queryLatest (fun m =>
        m.status == "processing" && m.device_type == "mic" &&
        decide (now - 300 ≤ m.upload_timestamp)) db with
    | some m => m.id
    | none => "unassigned"

/-- The linking rule as claim C3 words it — priority to a Recording whose
deviceId equals the capture's, then any processing Recording active in the
last 5 minutes.  Stated from the claim for comparison with
`upload_image_link`. -/
def claimedImageLink (d : String) (db : List Meeting) (now : Nat) : String :=
  match queryLatest (fun m =>
      m.mac_address == some d && m.session_active && m.status == "processing") db with
  | some m => m.id
  | none =>
    match queryLatest (fun m =>
        m.status == "processing" && decide (now - 300 ≤ m.upload_timestamp)) db with
    | some m => m.id
    | none => "unassigned"

/-- `process_meeting` (`src/ai_engine.py` lines 476–630) for a meeting whose
row exists: `blobSize` is the size of the downloaded audio object (`none`
when the blob is missing); the external Transcriber and Summarizer are
oracle parameters.  The `Bool` records whether the Transcriber was invoked. -/
def process_meeting (m : Meeting) (blobSize : Option Nat)
    (transcriber : Nat → String) (summarizer : String → String) (now : Nat) :
    Meeting × Bool :=
  match blobSize with
  | none =>
    ({ m with status := "failed", summary := some "Audio file missing (Blob)." },
     false)
  | some file_size =>
    if file_size < 1024 then
      ({ m with status := "failed", summary := some "Audio recording too short." },
       false)
    else
      let text := transcriber file_size
      let s := summarizer text
      let done : Meeting :=
        { m with transcription_text := some text, summary := some s,
                 status := "completed", session_active := false,
                 session_end_timestamp := some now }
      (done, true)

/-! ## The operations of claim C1 -/

inductive SessionOp where
  | upload (filename : Option String) (mac : Option String) (body : List Nat)
      (f1 f2 f3 f4 : String) (now : Nat)
  | endById (meeting_id : String) (now : Nat)
  | endByMac (mac : String) (now : Nat)
  | reprocess (meeting_id : String)
  | requeue
  deriving DecidableEq

def stepOp (db : List Meeting) : SessionOp → List Meeting
  | .upload fn mac body f1 f2 f3 f4 now => upload_chunk db fn mac body f1 f2 f3 f4 now
  | .endById mid now => (end_session db mid now).1
  | .endByMac mac now => (end_session_by_mac db mac now).1
  | .reprocess mid => (reprocess_meeting db mid).1
  | .requeue => (requeue_stuck_meetings db).1

/-- States reachable from an empty table by a sequence of operations. -/
def runOps (ops : List SessionOp) : List Meeting := ops.foldl stepOp []

/-- The predicate of the at-most-one-active-session invariant. -/
def c1Pred (d : Option String) (m : Meeting) : Bool :=
  m.mac_address == d && m.session_active && m.status == "processing"

/-- The count the at-most-one-active-session invariant bounds. -/
def activeProcessingCount (d : Option String) (db : List Meeting) : Nat :=
  db.countP (c1Pred d)

/-- The restriction of the amended claim C1: chunk uploads are live-stream
uploads with a device mac present; the other operations are unrestricted. -/
def liveOnlyOp : SessionOp → Prop
  | .upload fn mac _ _ _ _ _ _ => fn = some "live.wav" ∧ macPresent mac = true
  | _ => True

/-- The inductive invariant: every row is a mic row, and each device has at
most one active processing session. -/
def dbInv (db : List Meeting) : Prop :=
  (∀ m ∈ db, m.device_type = "mic") ∧ ∀ d, db.countP (c1Pred d) ≤ 1

/-! ## Claim C2: append accounting for one session -/

/-- Session-local state: the Recording byte counter (`meeting.file_size`)
and the backing blob object. -/
structure SessState where
  file_size : Nat
  blob : List Nat
  deriving DecidableEq

/-- One chunk request at the blob/byte-accounting level (lines 472–577 of
`upload_chunk`): an empty body returns before any write; otherwise
`dataToWrite` is appended to the blob and `file_size` grows by exactly its
length. -/
def appendChunk (existing_session : Bool) (s : SessState) (chunk : List Nat) :
    SessState :=
  if chunk.length = 0 then s
  else
    let d := dataToWrite existing_session chunk
    if d.length = 0 then s
    else { file_size := s.file_size + d.length, blob := s.blob ++ d }

/-- A whole live session: the first request creates the Recording
(`file_size = 0`, empty blob) and is written without header skip
(`existing_session = False`); every later request appends with the
header-skip rule. -/
def processSession (chunks : List (List Nat)) : SessState :=
  match chunks with
  | [] => ⟨0, []⟩
  | c :: rest => rest.foldl (appendChunk true) (appendChunk false ⟨0, []⟩ c)

/-- The bytes actually written for one chunk request. -/
def chunkWritten (existing_session : Bool) (c : List Nat) : List Nat :=
  if c.length = 0 then [] else dataToWrite existing_session c

/-- The bytes actually written over a whole session, per request. -/
def writtenBytes : List (List Nat) → List (List Nat)
  | [] => []
  | c :: rest => chunkWritten false c :: rest.map (chunkWritten true)

/-! ## Concrete rows used by counterexamples and witnesses -/

/-- An active processing mic session for device `D1`. -/
def sampleMeeting : Meeting :=
  { id := "m1", filename := "a.wav", file_path := "a.wav",
    status := "processing", session_active := true, mac_address := some "D1",
    device_type := "mic", file_size := 500, upload_timestamp := 0,
    session_end_timestamp := none, transcription_text := none, summary := none }

/-- The same Recording already finalized at time 10. -/
def inactiveMeeting : Meeting :=
  { sampleMeeting with session_active := false,
                       session_end_timestamp := some 10 }

/-- A failed Recording. -/
def failedMeeting : Meeting := { sampleMeeting with status := "failed" }

/-- An active processing mic session for a device `MIC1`, last active at time
0 (more than 5 minutes before the observation points used below). -/
def staleMic : Meeting :=
  { id := "mStale", filename := "s.wav", file_path := "s.wav",
    status := "processing", session_active := true, mac_address := some "MIC1",
    device_type := "mic", file_size := 10, upload_timestamp := 0,
    session_end_timestamp := none, transcription_text := none, summary := none }

/-- The session query as claim C5 words it: deviceId match, `processing`,
`sessionActive` (the code's query also filters `device_type = "mic"`).
Stated from the claim for comparison with `livePred`. -/
def claimedLivePred (mac : Option String) (m : Meeting) : Bool :=
  m.mac_address == mac && m.status == "processing" && m.session_active

/-! ## Theorems -/

theorem leEncode4_length (v : Nat) : (leEncode4 v).length = 4 := rfl

theorem leDecode4_leEncode4 (v : Nat) : leDecode4 (leEncode4 v) = v % 2 ^ 32 := by
  simp only [leEncode4, leDecode4]
  omega

theorem leEncode4_leDecode4 (bs : List Nat) (hl : bs.length = 4)
    (hv : ∀ x ∈ bs, x < 256) : leEncode4 (leDecode4 bs) = bs := by
  match bs, hl with
  | [a, b, c, d], _ =>
    have ha : a < 256 := hv a (by simp)
    have hb : b < 256 := hv b (by simp)
    have hc : c < 256 := hv c (by simp)
    have hd : d < 256 := hv d (by simp)
    simp only [leDecode4, leEncode4, List.cons.injEq, and_true]
    refine ⟨?_, ?_, ?_, ?_⟩ <;> omega

/-- Slicing a concatenation of segments of lengths 4, 4, 32, 4 and a tail
recovers each segment. -/
theorem seg5_spec (p q m s t : List Nat) (hp : p.length = 4) (hq : q.length = 4)
    (hm : m.length = 32) (hs : s.length = 4) :
    (p ++ q ++ m ++ s ++ t).take 4 = p ∧
    ((p ++ q ++ m ++ s ++ t).drop 4).take 4 = q ∧
    ((p ++ q ++ m ++ s ++ t).drop 8).take 32 = m ∧
    ((p ++ q ++ m ++ s ++ t).drop 40).take 4 = s ∧
    (p ++ q ++ m ++ s ++ t).drop 44 = t ∧
    (p ++ q ++ m ++ s ++ t).length = 44 + t.length := by
  have hp4 : p.take 4 = p := List.take_of_length_le (by omega)
  have hq4 : q.take 4 = q := List.take_of_length_le (by omega)
  have hm32 : m.take 32 = m := List.take_of_length_le (by omega)
  have hs4 : s.take 4 = s := List.take_of_length_le (by omega)
  refine ⟨?_, ?_, ?_, ?_, ?_, ?_⟩ <;>
    simp [List.take_append_eq_append_take, List.drop_append_eq_append_drop,
      List.length_append, hp, hq, hm, hs, hp4, hq4, hm32, hs4,
      List.drop_of_length_le, List.take_of_length_le]
  omega

/-- Structure of the patched buffer: each field slice recovered, and the
length is preserved. -/
theorem patchedWav_spec (b : List Nat) (h2 : 44 ≤ b.length) :
    (patchedWav b).take 4 = b.take 4 ∧
    ((patchedWav b).drop 4).take 4 = leEncode4 (b.length - 8) ∧
    ((patchedWav b).drop 8).take 32 = (b.drop 8).take 32 ∧
    ((patchedWav b).drop 40).take 4 = leEncode4 (b.length - 44) ∧
    (patchedWav b).drop 44 = b.drop 44 ∧
    (patchedWav b).length = b.length := by
  have := seg5_spec (b.take 4) (leEncode4 (b.length - 8)) ((b.drop 8).take 32)
    (leEncode4 (b.length - 44)) (b.drop 44)
    (by simp; omega) (leEncode4_length _) (by simp; omega) (leEncode4_length _)
  refine ⟨this.1, this.2.1, this.2.2.1, this.2.2.2.1, this.2.2.2.2.1, ?_⟩
  rw [show patchedWav b =
      b.take 4 ++ leEncode4 (b.length - 8) ++ (b.drop 8).take 32 ++
        leEncode4 (b.length - 44) ++ b.drop 44 from rfl, this.2.2.2.2.2]
  simp
  omega

/-- `fix_wav_header` either leaves the buffer alone (non-WAV / short /
already-correct header) or returns the patched buffer. -/
theorem fix_wav_header_cases (b : List Nat) :
    fix_wav_header b = b ∨
      (startsRIFF b = true ∧ 44 ≤ b.length ∧ fix_wav_header b = patchedWav b) := by
  unfold fix_wav_header
  split
  · next h =>
    split
    · exact Or.inl rfl
    · exact Or.inr ⟨h.1, h.2, rfl⟩
  · exact Or.inl rfl

/-- On a genuine WAV buffer, applying `fix_wav_header` to the patched buffer
is the identity: the second pass either finds the sizes correct or rewrites
them with identical bytes. -/
theorem fix_wav_header_patched (b : List Nat) (h1 : startsRIFF b = true)
    (h2 : 44 ≤ b.length) : fix_wav_header (patchedWav b) = patchedWav b := by
  obtain ⟨ht4, hf1, hmid, hf2, htl, hlen⟩ := patchedWav_spec b h2
  have hriff : startsRIFF (patchedWav b) = true := by
    unfold startsRIFF at h1 ⊢
    rw [ht4]; exact h1
  have hlen' : 44 ≤ (patchedWav b).length := by omega
  unfold fix_wav_header
  rw [if_pos ⟨hriff, hlen'⟩]
  split
  · rfl
  · show patchedWav (patchedWav b) = patchedWav b
    have hout : patchedWav (patchedWav b) =
        (patchedWav b).take 4 ++ leEncode4 ((patchedWav b).length - 8) ++
          ((patchedWav b).drop 8).take 32 ++
          leEncode4 ((patchedWav b).length - 44) ++ (patchedWav b).drop 44 := rfl
    rw [hout, hlen, ht4, hmid, htl]
    rfl

theorem fix_wav_header_idem (b : List Nat) :
    fix_wav_header (fix_wav_header b) = fix_wav_header b := by
  rcases fix_wav_header_cases b with h | ⟨h1, h2, h⟩
  · rw [h, h]
  · rw [h, fix_wav_header_patched b h1 h2]

/-- Claim C6 (functional_correctness): for every byte buffer `b` of true total
length `L = b.length`, header repair returns a buffer whose bytes 4–8 are the
little-endian encoding of `L − 8` and whose bytes 40–44 are the little-endian
encoding of `L − 44`, every other byte unchanged; a buffer not starting with
the RIFF tag or shorter than 44 bytes is returned unchanged; and repair is
idempotent. -/
theorem claim_C6_header_repair (b : List Nat) (hv : ∀ x ∈ b, x < 256) :
    (startsRIFF b = true → 44 ≤ b.length →
      ((fix_wav_header b).drop 4).take 4 = leEncode4 (b.length - 8) ∧
      ((fix_wav_header b).drop 40).take 4 = leEncode4 (b.length - 44) ∧
      (fix_wav_header b).take 4 = b.take 4 ∧
      ((fix_wav_header b).drop 8).take 32 = (b.drop 8).take 32 ∧
      (fix_wav_header b).drop 44 = b.drop 44 ∧
      (fix_wav_header b).length = b.length) ∧
    (¬ (startsRIFF b = true ∧ 44 ≤ b.length) → fix_wav_header b = b) ∧
    fix_wav_header (fix_wav_header b) = fix_wav_header b := by
  refine ⟨?_, ?_, fix_wav_header_idem b⟩
  · intro h1 h2
    by_cases hok : leDecode4 ((b.drop 4).take 4) = b.length - 8 ∧
        leDecode4 ((b.drop 40).take 4) = b.length - 44
    · have hb : fix_wav_header b = b := by
        unfold fix_wav_header
        rw [if_pos ⟨h1, h2⟩, if_pos hok]
      have hl1 : ((b.drop 4).take 4).length = 4 := by
        simp [List.length_take, List.length_drop]; omega
      have hl2 : ((b.drop 40).take 4).length = 4 := by
        simp [List.length_take, List.length_drop]; omega
      have hv1 : ∀ x ∈ (b.drop 4).take 4, x < 256 := fun x hx =>
        hv x (List.mem_of_mem_drop (List.mem_of_mem_take hx))
      have hv2 : ∀ x ∈ (b.drop 40).take 4, x < 256 := fun x hx =>
        hv x (List.mem_of_mem_drop (List.mem_of_mem_take hx))
      rw [hb]
      refine ⟨?_, ?_, rfl, rfl, rfl, rfl⟩
      · rw [← hok.1]; exact (leEncode4_leDecode4 _ hl1 hv1).symm
      · rw [← hok.2]; exact (leEncode4_leDecode4 _ hl2 hv2).symm
    · have hb : fix_wav_header b = patchedWav b := by
        unfold fix_wav_header
        rw [if_pos ⟨h1, h2⟩, if_neg hok]
      obtain ⟨ht4, hf1, hmid, hf2, htl, hlen⟩ := patchedWav_spec b h2
      rw [hb]
      exact ⟨hf1, hf2, ht4, hmid, htl, hlen⟩
  · intro h
    unfold fix_wav_header
    rw [if_neg h]

/-! ### Round-trip lemmas -/

theorem hexChar_facts (d : Nat) (hd : d < 16) :
    isHexDigitB (hexChar d) = true ∧ hexVal (hexChar d) = d ∧
    hexChar d < 128 ∧ isPyWS (hexChar d) = false ∧ hexChar d ≠ 13 ∧
    hexChar d ≠ 95 ∧ hexChar d ≠ 43 ∧ hexChar d ≠ 45 := by
  refine ⟨?_, ?_, ?_, ?_, ?_, ?_, ?_, ?_⟩ <;>
    simp only [isHexDigitB, hexChar, hexVal, isPyWS, decide_eq_true_eq,
      decide_eq_false_iff_not] <;>
    (repeat' split) <;> omega

theorem mem_hexDigitsRev (n : Nat) :
    ∀ c ∈ hexDigitsRev n, ∃ d, d < 16 ∧ c = hexChar d := by
  induction n using Nat.strong_induction_on with
  | _ n ih =>
    match n with
    | 0 => intro c hc; simp [hexDigitsRev] at hc
    | m + 1 =>
      intro c hc
      rw [hexDigitsRev] at hc
      rcases List.mem_cons.mp hc with h | h
      · exact ⟨(m + 1) % 16, Nat.mod_lt _ (by norm_num), h⟩
      · exact ih ((m + 1) / 16) (Nat.div_lt_self (Nat.succ_pos m) (by norm_num)) c h

theorem mem_hexDigits (n : Nat) :
    ∀ c ∈ hexDigits n, ∃ d, d < 16 ∧ c = hexChar d := by
  intro c hc
  unfold hexDigits at hc
  split at hc
  · simp at hc
    exact ⟨0, by norm_num, by simp [hc, hexChar]⟩
  · exact mem_hexDigitsRev n c (List.mem_reverse.mp hc)

theorem hexDigits_ne_nil (n : Nat) : hexDigits n ≠ [] := by
  unfold hexDigits
  split
  · simp
  · next h =>
    match hm : n, h with
    | m + 1, _ =>
      rw [hexDigitsRev]
      simp

theorem hexDigitsRev_length_le (k : Nat) :
    ∀ n, n < 16 ^ k → (hexDigitsRev n).length ≤ k := by
  induction k with
  | zero =>
    intro n hn
    interval_cases n
    simp [hexDigitsRev]
  | succ k ih =>
    intro n hn
    match n with
    | 0 => simp [hexDigitsRev]
    | m + 1 =>
      rw [hexDigitsRev]
      simp only [List.length_cons]
      have h16 : 16 ^ (k + 1) = 16 ^ k * 16 := by ring
      have hlt : (m + 1) / 16 < 16 ^ k :=
        (Nat.div_lt_iff_lt_mul (by norm_num)).mpr (by omega)
      exact Nat.succ_le_succ (ih _ hlt)

theorem hexDigits_length_le (n : Nat) (hn : n < 16 ^ 8) :
    (hexDigits n).length ≤ 8 := by
  unfold hexDigits
  split
  · simp
  · simpa using hexDigitsRev_length_le 8 n hn

theorem hexDigitsRev_ne_nil (n : Nat) (h : 1 ≤ n) : hexDigitsRev n ≠ [] := by
  match n, h with
  | m + 1, _ => rw [hexDigitsRev]; simp

theorem hexDigitsRev_getLast (n : Nat) (h : 1 ≤ n) :
    ∃ d, 1 ≤ d ∧ d < 16 ∧ (hexDigitsRev n).getLast? = some (hexChar d) := by
  induction n using Nat.strong_induction_on with
  | _ n ih =>
    match n, h with
    | m + 1, _ =>
      rw [hexDigitsRev]
      by_cases h16 : m + 1 < 16
      · have hdiv : (m + 1) / 16 = 0 := Nat.div_eq_of_lt h16
        rw [hdiv]
        refine ⟨(m + 1) % 16, ?_, Nat.mod_lt _ (by norm_num), ?_⟩
        · have := Nat.mod_eq_of_lt h16
          omega
        · simp [hexDigitsRev]
      · have hdiv1 : 1 ≤ (m + 1) / 16 := by
          rw [Nat.le_div_iff_mul_le (by norm_num)]
          omega
        obtain ⟨d, hd1, hd2, hd3⟩ :=
          ih ((m + 1) / 16) (Nat.div_lt_self (Nat.succ_pos m) (by norm_num)) hdiv1
        refine ⟨d, hd1, hd2, ?_⟩
        rcases hl : hexDigitsRev ((m + 1) / 16) with _ | ⟨x, xs⟩
        · exact absurd hl (hexDigitsRev_ne_nil _ hdiv1)
        · rw [hl] at hd3
          exact hd3

theorem hexDigits_head (n : Nat) (h : 1 ≤ n) :
    ∃ d, 1 ≤ d ∧ d < 16 ∧ (hexDigits n).head? = some (hexChar d) := by
  obtain ⟨d, h1, h2, h3⟩ := hexDigitsRev_getLast n h
  refine ⟨d, h1, h2, ?_⟩
  unfold hexDigits
  rw [if_neg (by omega), List.head?_reverse]
  exact h3

theorem dropWhile_eq_self_of_all (p : Nat → Bool) (s : List Nat)
    (h : ∀ c ∈ s, p c = false) : s.dropWhile p = s := by
  cases s with
  | nil => rfl
  | cons a t =>
    rw [List.dropWhile_cons, h a (List.mem_cons_self a t)]
    rfl

theorem stripPyWS_eq_self (s : List Nat) (h : ∀ c ∈ s, isPyWS c = false) :
    stripPyWS s = s := by
  unfold stripPyWS
  rw [dropWhile_eq_self_of_all _ _ h,
    dropWhile_eq_self_of_all _ _ (fun c hc => h c (List.mem_reverse.mp hc)),
    List.reverse_reverse]

theorem parseRest_all_digits (s : List Nat) (acc : Nat)
    (h : ∀ c ∈ s, isHexDigitB c = true) :
    parseRest acc s = some (s.foldl (fun a c => a * 16 + hexVal c) acc) := by
  induction s generalizing acc with
  | nil => rfl
  | cons c t ih =>
    have hc : isHexDigitB c = true := h c (List.mem_cons_self c t)
    have hc95 : c ≠ 95 := by
      intro he
      rw [he] at hc
      simp [isHexDigitB] at hc
    rw [parseRest.eq_def]
    dsimp only
    rw [if_neg hc95, if_pos hc, ih _ (fun x hx => h x (List.mem_cons_of_mem c hx))]
    simp

theorem parseNum_all_digits (s : List Nat) (hne : s ≠ [])
    (h : ∀ c ∈ s, isHexDigitB c = true) :
    parseNum s = some (s.foldl (fun a c => a * 16 + hexVal c) 0) := by
  match s, hne with
  | c :: t, _ =>
    have hc : isHexDigitB c = true := h c (List.mem_cons_self c t)
    simp only [parseNum]
    rw [if_pos hc, parseRest_all_digits t _ (fun x hx => h x (List.mem_cons_of_mem c hx))]
    simp

theorem foldl_hexDigitsRev (n : Nat) :
    ∀ acc, (hexDigitsRev n).reverse.foldl (fun a c => a * 16 + hexVal c) acc =
      acc * 16 ^ (hexDigitsRev n).length + n := by
  induction n using Nat.strong_induction_on with
  | _ n ih =>
    match n with
    | 0 =>
      intro acc
      simp [hexDigitsRev]
    | m + 1 =>
      intro acc
      rw [hexDigitsRev]
      simp only [List.reverse_cons, List.foldl_append, List.length_cons]
      rw [ih ((m + 1) / 16) (Nat.div_lt_self (Nat.succ_pos m) (by norm_num)) acc]
      simp only [List.foldl_cons, List.foldl_nil]
      rw [(hexChar_facts _ (Nat.mod_lt _ (by norm_num))).2.1]
      have hdm : (m + 1) / 16 * 16 + (m + 1) % 16 = m + 1 := by omega
      calc (acc * 16 ^ (hexDigitsRev ((m + 1) / 16)).length + (m + 1) / 16) * 16 +
            (m + 1) % 16
          = acc * (16 ^ (hexDigitsRev ((m + 1) / 16)).length * 16) +
            ((m + 1) / 16 * 16 + (m + 1) % 16) := by ring
        _ = acc * 16 ^ ((hexDigitsRev ((m + 1) / 16)).length + 1) + (m + 1) := by
            rw [hdm, pow_succ]

theorem parseNum_hexDigits (n : Nat) : parseNum (hexDigits n) = some n := by
  by_cases h0 : n = 0
  · subst h0
    decide
  · unfold hexDigits
    rw [if_neg h0]
    rw [parseNum_all_digits _ (by simpa using hexDigitsRev_ne_nil n (by omega))
      (fun c hc => by
        obtain ⟨d, hd, rfl⟩ := mem_hexDigitsRev n c (List.mem_reverse.mp hc)
        exact (hexChar_facts d hd).1)]
    rw [foldl_hexDigitsRev n 0]
    simp

theorem parsePrefixed_of_head_ne (c : Nat) (t : List Nat) (hc : c ≠ 48) :
    parsePrefixed (c :: t) = parseNum (c :: t) := by
  cases t with
  | nil => rfl
  | cons x r =>
    simp only [parsePrefixed]
    rw [if_neg (fun hx => hc hx.1)]

theorem parseHexInt_hexDigits (n : Nat) : parseHexInt (hexDigits n) = some (n : Int) := by
  by_cases h0 : n = 0
  · subst h0
    decide
  · have hmem := mem_hexDigits n
    have hall : (hexDigits n).all (fun c => decide (c < 128)) = true := by
      rw [List.all_eq_true]
      intro c hc
      obtain ⟨d, hd, rfl⟩ := hmem c hc
      simpa using (hexChar_facts d hd).2.2.1
    have hstrip : stripPyWS (hexDigits n) = hexDigits n := by
      apply stripPyWS_eq_self
      intro c hc
      obtain ⟨d, hd, rfl⟩ := hmem c hc
      exact (hexChar_facts d hd).2.2.2.1
    obtain ⟨d, hd1, hd2, hd3⟩ := hexDigits_head n (by omega)
    unfold parseHexInt
    rw [if_pos hall, hstrip]
    rcases hl : hexDigits n with _ | ⟨c, r⟩
    · exact absurd hl (hexDigits_ne_nil n)
    · rw [hl] at hd3
      have hc : c = hexChar d := by
        simpa using hd3
      subst hc
      have h43 : hexChar d ≠ 43 := (hexChar_facts d hd2).2.2.2.2.2.2.1
      have h45 : hexChar d ≠ 45 := (hexChar_facts d hd2).2.2.2.2.2.2.2
      have h48 : hexChar d ≠ 48 := by
        unfold hexChar
        split <;> omega
      dsimp only
      rw [if_neg h43, if_neg h45, parsePrefixed_of_head_ne _ _ h48, ← hl,
        parseNum_hexDigits n]
      rfl

theorem findCRLF_append (xs ys : List Nat) (h : ∀ c ∈ xs, c ≠ 13) :
    findCRLF (xs ++ 13 :: 10 :: ys) = some xs.length := by
  induction xs with
  | nil => simp [findCRLF]
  | cons x t ihx =>
    have hx : x ≠ 13 := h x (List.mem_cons_self x t)
    cases t with
    | nil => simp [findCRLF, hx]
    | cons y u =>
      have ih2 := ihx (fun c hc => h c (List.mem_cons_of_mem x hc))
      simp only [List.cons_append] at ih2 ⊢
      rw [findCRLF.eq_def]
      dsimp only
      rw [if_neg (fun hc => hx hc.1), ih2]
      simp

theorem pyStart_natCast (L n : Nat) : pyStart L (n : Nat) = n := by
  simp [pyStart]

/-- One unfolding of the decode loop. -/
theorem decodeLoop_succ (buf : List Nat) (fuel : Nat) (pos : Int)
    (acc : List Nat) :
    decodeLoop buf (fuel + 1) pos acc =
      if pos < (buf.length : Int) then
        match pyFind buf pos with
        | none => acc ++ buf.drop (pyStart buf.length pos)
        | some e =>
          match parseHexInt
              ((buf.drop (pyStart buf.length pos)).take
                (e - pyStart buf.length pos)) with
          | none => acc ++ buf.drop (pyStart buf.length pos)
          | some csz =>
            if csz = 0 then acc
            else
              if ((e + 2 : Nat) : Int) + csz > (buf.length : Int) then
                acc ++ buf.drop (e + 2)
              else
                decodeLoop buf fuel (((e + 2 : Nat) : Int) + csz + 2)
                  (acc ++ pySlice buf (e + 2) (((e + 2 : Nat) : Int) + csz))
      else acc := rfl

theorem encodeChunked_nil : encodeChunked [] = [48, 13, 10, 13, 10] := rfl

theorem encodeChunked_cons (c : List Nat) (cs : List (List Nat)) :
    encodeChunked (c :: cs) = encodeChunk c ++ encodeChunked cs := by
  simp [encodeChunked, encodeChunk, List.append_assoc]

theorem encodeChunk_length (c : List Nat) :
    (encodeChunk c).length = (hexDigits c.length).length + c.length + 4 := by
  simp [encodeChunk, crlfBytes]
  omega

theorem length_le_encodeChunked (chunks : List (List Nat)) :
    chunks.length ≤ (encodeChunked chunks).length := by
  induction chunks with
  | nil => simp [encodeChunked_nil]
  | cons c cs ih =>
    rw [encodeChunked_cons]
    simp only [List.length_append, List.length_cons, encodeChunk_length]
    have : 1 ≤ (hexDigits c.length).length := by
      have := hexDigits_ne_nil c.length
      cases hl : hexDigits c.length with
      | nil => exact absurd hl this
      | cons a t => simp
    omega

theorem five_le_encodeChunked (chunks : List (List Nat)) :
    5 ≤ (encodeChunked chunks).length := by
  induction chunks with
  | nil => simp [encodeChunked_nil]
  | cons c cs ih =>
    rw [encodeChunked_cons]
    simp only [List.length_append]
    omega

/-- Main round-trip lemma: running the decode loop over an arbitrary prefix
`A` followed by the chunk-encoded stream recovers the chunk bodies. -/
theorem decodeLoop_encodeChunked (chunks : List (List Nat)) :
    ∀ (fuel : Nat), chunks.length < fuel →
      ∀ (A acc : List Nat), (∀ c ∈ chunks, c ≠ []) →
        decodeLoop (A ++ encodeChunked chunks) fuel (A.length : Int) acc =
          acc ++ chunks.flatten := by
  induction chunks with
  | nil =>
    intro fuel hfuel A acc _
    match fuel, hfuel with
    | f + 1, _ =>
      rw [decodeLoop_succ]
      have hlen : (A ++ encodeChunked []).length = A.length + 5 := by
        simp [encodeChunked_nil]
      have hlt : (A.length : Int) < ((A ++ encodeChunked []).length : Int) := by
        rw [hlen]; push_cast; omega
      rw [if_pos hlt]
      have hdrop : (A ++ encodeChunked []).drop (A.length) = encodeChunked [] :=
        List.drop_left A _
      have hfind : pyFind (A ++ encodeChunked []) (A.length : Int) =
          some (1 + A.length) := by
        unfold pyFind
        rw [pyStart_natCast, hdrop]
        rw [show findCRLF (encodeChunked []) = some 1 from by decide]
        rfl
      rw [hfind]
      dsimp only
      rw [pyStart_natCast, hdrop]
      rw [show 1 + A.length - A.length = 1 from by omega]
      rw [show (encodeChunked []).take 1 = [48] from by decide]
      rw [show parseHexInt [48] = some (0 : Int) from by decide]
      simp
  | cons c cs ih =>
    intro fuel hfuel A acc hne
    match fuel, hfuel with
    | f + 1, hf =>
      have hcne : c ≠ [] := hne c (List.mem_cons_self c cs)
      have hn1 : 1 ≤ c.length := by
        cases c with
        | nil => exact absurd rfl hcne
        | cons a t => simp
      set n := c.length with hn
      set k := (hexDigits n).length with hk
      set E := encodeChunked cs with hE
      have hbufeq : A ++ encodeChunked (c :: cs) =
          A ++ (hexDigits n ++ (13 :: 10 :: (c ++ (13 :: 10 :: E)))) := by
        rw [encodeChunked_cons]
        simp [encodeChunk, crlfBytes]
      rw [hbufeq]
      set buf := A ++ (hexDigits n ++ (13 :: 10 :: (c ++ (13 :: 10 :: E)))) with hbuf
      have hk1 : 1 ≤ k := by
        have := hexDigits_ne_nil n
        cases hl : hexDigits n with
        | nil => exact absurd hl this
        | cons a t => rw [hk, hl]; simp
      have hlenbuf : buf.length = A.length + k + 2 + n + 2 + E.length := by
        rw [hbuf]; simp [hk]; omega
      have hElen : 5 ≤ E.length := by
        rw [hE]
        exact five_le_encodeChunked cs
      rw [decodeLoop_succ]
      have hlt : (A.length : Int) < (buf.length : Int) := by
        rw [hlenbuf]; push_cast; omega
      rw [if_pos hlt]
      have hdrop : buf.drop A.length = hexDigits n ++ (13 :: 10 :: (c ++ (13 :: 10 :: E))) := by
        rw [hbuf]; exact List.drop_left A _
      have hfind : pyFind buf (A.length : Int) = some (k + A.length) := by
        unfold pyFind
        rw [pyStart_natCast, hdrop]
        rw [findCRLF_append (hexDigits n) _ (fun x hx => by
          obtain ⟨d, hd, rfl⟩ := mem_hexDigits n x hx
          exact (hexChar_facts d hd).2.2.2.2.1)]
        simp [hk]
      rw [hfind]
      dsimp only
      rw [pyStart_natCast, hdrop]
      rw [show k + A.length - A.length = k from by omega]
      have htake : (hexDigits n ++ (13 :: 10 :: (c ++ (13 :: 10 :: E)))).take k =
          hexDigits n := by
        rw [hk]; exact List.take_left _ _
      rw [htake, parseHexInt_hexDigits n]
      dsimp only
      have hne0 : ¬ ((n : Int) = 0) := by
        rw [Int.natCast_eq_zero]
        omega
      rw [if_neg hne0]
      have hnotgt : ¬ (((k + A.length + 2 : Nat) : Int) + (n : Int) > (buf.length : Int)) := by
        rw [hlenbuf]; push_cast; omega
      rw [if_neg hnotgt]
      have hslice : pySlice buf (k + A.length + 2)
          (((k + A.length + 2 : Nat) : Int) + (n : Int)) = c := by
        unfold pySlice
        have hst : pyStart buf.length (((k + A.length + 2 : Nat) : Int) + (n : Int)) =
            k + A.length + 2 + n := by
          unfold pyStart
          rw [if_neg (by push_cast; omega)]
          push_cast
          omega
        rw [hst]
        rw [show k + A.length + 2 + n - (k + A.length + 2) = n from by omega]
        have hdrop2 : buf.drop (k + A.length + 2) = c ++ (13 :: 10 :: E) := by
          rw [show buf = (A ++ hexDigits n ++ [13, 10]) ++ (c ++ (13 :: 10 :: E)) from by
            rw [hbuf]; simp [List.append_assoc]]
          rw [show k + A.length + 2 = (A ++ hexDigits n ++ [13, 10]).length from by
            simp [hk]; omega]
          exact List.drop_left _ _
        rw [hdrop2, hn]
        exact List.take_left _ _
      rw [hslice]
      have hkk : (hexDigits c.length).length = k := by
        rw [← hn]
      have hpos2 : (((k + A.length + 2 : Nat) : Int) + (n : Int)) + 2 =
          (((A ++ encodeChunk c).length : Nat) : Int) := by
        simp only [List.length_append, encodeChunk_length, hkk]
        push_cast
        omega
      rw [hpos2]
      have hbuf2 : buf = (A ++ encodeChunk c) ++ E := by
        rw [hbuf]
        simp [encodeChunk, crlfBytes, List.append_assoc]
      rw [hbuf2, hE]
      rw [ih f (by simp only [List.length_cons] at hf; omega) (A ++ encodeChunk c)
        (acc ++ c) (fun x hx => hne x (List.mem_cons_of_mem c hx))]
      simp

theorem startsRIFF_cons_ne (d : Nat) (t : List Nat) (hd : d ≠ 82) :
    startsRIFF (d :: t) = false := by
  unfold startsRIFF riffMagic
  rw [Bool.eq_false_iff]
  intro h
  have he := eq_of_beq h
  rw [show (d :: t).take 4 = d :: t.take 3 from rfl] at he
  simp only [List.cons.injEq] at he
  exact hd he.1

theorem stripChunkedTE_encodeChunked_cons (c : List Nat) (cs : List (List Nat))
    (hc : c ≠ []) (hlen8 : c.length < 16 ^ 8) :
    stripChunkedTE (encodeChunked (c :: cs)) =
      decodeLoop (encodeChunked (c :: cs))
        ((encodeChunked (c :: cs)).length + 1) 0 [] := by
  have hn1 : 1 ≤ c.length := by
    cases c with
    | nil => exact absurd rfl hc
    | cons a t => simp
  set n := c.length with hn
  set k := (hexDigits n).length with hk
  set E := encodeChunked cs with hE
  have hbufX : encodeChunked (c :: cs) =
      hexDigits n ++ (13 :: 10 :: (c ++ (13 :: 10 :: E))) := by
    rw [encodeChunked_cons]
    simp [encodeChunk, crlfBytes]
  have hk1 : 1 ≤ k := by
    have := hexDigits_ne_nil n
    cases hl : hexDigits n with
    | nil => exact absurd hl this
    | cons a t => rw [hk, hl]; simp
  have hk8 : k ≤ 8 := by
    rw [hk]
    exact hexDigits_length_le n hlen8
  have hR : startsRIFF (encodeChunked (c :: cs)) = false := by
    rw [hbufX]
    cases hl : hexDigits n with
    | nil => exact absurd hl (hexDigits_ne_nil n)
    | cons d r =>
      obtain ⟨e, he, hde⟩ := mem_hexDigits n d (by rw [hl]; exact List.mem_cons_self d r)
      have hd82 : d ≠ 82 := by
        rw [hde]
        unfold hexChar
        split <;> omega
      simp only [List.cons_append]
      exact startsRIFF_cons_ne d _ hd82
  have h4 : 4 < (encodeChunked (c :: cs)).length := by
    have := five_le_encodeChunked (c :: cs)
    omega
  have hfind : pyFind (encodeChunked (c :: cs)) 0 = some k := by
    unfold pyFind
    rw [show pyStart (encodeChunked (c :: cs)).length 0 = 0 from rfl]
    rw [List.drop_zero, hbufX]
    rw [findCRLF_append (hexDigits n) _ (fun x hx => by
      obtain ⟨d, hd, rfl⟩ := mem_hexDigits n x hx
      exact (hexChar_facts d hd).2.2.2.2.1)]
    simp [hk]
  have htake : (encodeChunked (c :: cs)).take k = hexDigits n := by
    rw [hbufX, hk]
    exact List.take_left _ _
  unfold stripChunkedTE
  rw [if_pos ⟨by rw [hR]; simp, h4⟩, hfind]
  dsimp only
  rw [if_pos ⟨hk1, hk8⟩, htake, parseHexInt_hexDigits n]

/-- Claim C7 (algebraic_relational): chunk-encoding a payload with arbitrary
chunk boundaries (each chunk a hex size line, CRLF, that many bytes, CRLF,
terminated by a zero-size chunk) and running the transport normalizer yields
exactly the original payload, for every payload that does not itself trigger
the chunked-framing detection heuristic; and every buffer for which
detection fails (starts with RIFF, or the bytes before the first CRLF do not
parse as a hexadecimal integer) is returned unmodified.  Chunks are
non-empty (a zero-size chunk is the stream terminator) and the first chunk
is shorter than `16 ^ 8` bytes, so that its size line is at most 8 bytes,
the bound the detection heuristic reads. -/
theorem claim_C7_transport_normalizer :
    (∀ chunks : List (List Nat), (∀ c ∈ chunks, c ≠ []) →
      (∀ c ∈ chunks.take 1, c.length < 16 ^ 8) →
      triggersTE chunks.flatten = false →
      stripChunkedTE (encodeChunked chunks) = chunks.flatten) ∧
    (∀ buf : List Nat,
      startsRIFF buf = true ∨ parseHexInt (firstLine buf) = none →
      stripChunkedTE buf = buf) := by
  constructor
  · intro chunks hne hfst _
    have hmain := decodeLoop_encodeChunked chunks
      ((encodeChunked chunks).length + 1)
      (by have := length_le_encodeChunked chunks; omega) [] [] hne
    cases chunks with
    | nil => decide
    | cons c cs =>
      rw [stripChunkedTE_encodeChunked_cons c cs
        (hne c (List.mem_cons_self c cs))
        (hfst c (by simp))]
      simpa using hmain
  · intro buf h
    unfold stripChunkedTE
    rcases h with hR | hP
    · rw [if_neg (fun hcond => hcond.1 hR)]
    · by_cases hs : ¬ startsRIFF buf = true ∧ 4 < buf.length
      · rw [if_pos hs]
        cases hpf : pyFind buf 0 with
        | none => rfl
        | some fle =>
          have hfl : firstLine buf = buf.take fle := by
            unfold firstLine
            rw [hpf]
          rw [hfl] at hP
          dsimp only
          by_cases hr : 0 < fle ∧ fle ≤ 8
          · rw [if_pos hr, hP]
          · rw [if_neg hr]
      · rw [if_neg hs]

/-- Witness for **C7**: a concrete RIFF-tagged payload split into two chunks
round-trips, and a concrete non-hex-prefixed buffer passes through. -/
theorem claim_C7_transport_normalizer_witness :
    stripChunkedTE (encodeChunked [[82, 73, 70, 70], [1, 2]]) =
      [82, 73, 70, 70, 1, 2] ∧
    stripChunkedTE [82, 73, 70, 70, 9] = [82, 73, 70, 70, 9] := by
  constructor
  · have := claim_C7_transport_normalizer.1 [[82, 73, 70, 70], [1, 2]]
      (by decide) (by decide) (by decide)
    simpa using this
  · exact claim_C7_transport_normalizer.2 [82, 73, 70, 70, 9] (Or.inl (by decide))

/-- Witness for **C6** at the concrete buffer `wavExample`. -/
theorem claim_C6_header_repair_witness :
    ((fix_wav_header wavExample).drop 4).take 4 = leEncode4 36 ∧
    ((fix_wav_header wavExample).drop 40).take 4 = leEncode4 0 ∧
    fix_wav_header (fix_wav_header wavExample) = fix_wav_header wavExample := by
  have h := claim_C6_header_repair wavExample (by decide)
  have h1 := h.1 (by decide) (by decide)
  exact ⟨h1.1, h1.2.1, h.2.2⟩

/-! ## Properties of `queryLatest` -/

theorem queryLatest_spec (p : Meeting → Bool) (db : List Meeting) :
    (queryLatest p db = none ∧ ∀ m ∈ db, p m = false) ∨
    (∃ b, queryLatest p db = some b ∧ b ∈ db ∧ p b = true ∧
      ∀ x ∈ db, p x = true → x.upload_timestamp ≤ b.upload_timestamp) := by
  induction db with
  | nil => left; simp [queryLatest]
  | cons m rest ih =>
    rcases ih with ⟨hq, hall⟩ | ⟨b, hq, hmem, hpb, hmax⟩
    · by_cases hp : p m = true
      · right
        refine ⟨m, ?_, List.mem_cons_self m rest, hp, ?_⟩
        · simp only [queryLatest]
          rw [hq]
          simp [hp]
        · intro x hx hpx
          rcases List.mem_cons.mp hx with rfl | hx
          · exact Nat.le_refl _
          · exact absurd hpx (by simp [hall x hx])
      · left
        have hpf : p m = false := by simpa using hp
        constructor
        · simp only [queryLatest]
          rw [hq]
          simp [hpf]
        · intro x hx
          rcases List.mem_cons.mp hx with rfl | hx
          · exact hpf
          · exact hall x hx
    · right
      by_cases hp : p m = true
      · by_cases hlt : b.upload_timestamp > m.upload_timestamp
        · refine ⟨b, ?_, List.mem_cons_of_mem m hmem, hpb, ?_⟩
          · simp only [queryLatest]
            rw [hq]
            simp [hp, hlt]
          · intro x hx hpx
            rcases List.mem_cons.mp hx with rfl | hx
            · omega
            · exact hmax x hx hpx
        · refine ⟨m, ?_, List.mem_cons_self m rest, hp, ?_⟩
          · simp only [queryLatest]
            rw [hq]
            simp [hp, hlt]
          · intro x hx hpx
            rcases List.mem_cons.mp hx with rfl | hx
            · exact Nat.le_refl _
            · exact Nat.le_trans (hmax x hx hpx) (by omega)
      · refine ⟨b, ?_, List.mem_cons_of_mem m hmem, hpb, ?_⟩
        · simp only [queryLatest]
          rw [hq]
          simp [hp]
        · intro x hx hpx
          rcases List.mem_cons.mp hx with rfl | hx
          · exact absurd hpx hp
          · exact hmax x hx hpx

theorem queryLatest_none_iff (p : Meeting → Bool) (db : List Meeting) :
    queryLatest p db = none ↔ ∀ m ∈ db, p m = false := by
  constructor
  · intro h
    rcases queryLatest_spec p db with ⟨_, hall⟩ | ⟨b, hq, _, _, _⟩
    · exact hall
    · rw [h] at hq
      simp at hq
  · intro hall
    rcases queryLatest_spec p db with ⟨hn, _⟩ | ⟨b, hq, hm, hpb, _⟩
    · exact hn
    · exact absurd hpb (by simp [hall b hm])

theorem queryLatest_some_spec (p : Meeting → Bool) (db : List Meeting)
    (b : Meeting) (h : queryLatest p db = some b) :
    b ∈ db ∧ p b = true ∧
      ∀ x ∈ db, p x = true → x.upload_timestamp ≤ b.upload_timestamp := by
  rcases queryLatest_spec p db with ⟨hn, _⟩ | ⟨c, hq, hm, hpc, hmax⟩
  · rw [h] at hn
    simp at hn
  · rw [h] at hq
    injection hq with he
    subst he
    exact ⟨hm, hpc, hmax⟩

theorem appendChunk_spec (e : Bool) (s : SessState) (c : List Nat)
    (h : s.file_size = s.blob.length) :
    (appendChunk e s c).file_size = (appendChunk e s c).blob.length ∧
    (appendChunk e s c).blob = s.blob ++ chunkWritten e c := by
  unfold appendChunk chunkWritten
  by_cases h0 : c.length = 0
  · rw [if_pos h0, if_pos h0]
    simp [h]
  · rw [if_neg h0, if_neg h0]
    dsimp only
    by_cases hd : (dataToWrite e c).length = 0
    · rw [if_pos hd]
      refine ⟨h, ?_⟩
      rw [List.length_eq_zero.mp hd]
      simp
    · rw [if_neg hd]
      exact ⟨by simp [h], rfl⟩

theorem foldl_appendChunk (rest : List (List Nat)) :
    ∀ s : SessState, s.file_size = s.blob.length →
      (rest.foldl (appendChunk true) s).blob =
        s.blob ++ (rest.map (chunkWritten true)).flatten ∧
      (rest.foldl (appendChunk true) s).file_size =
        (rest.foldl (appendChunk true) s).blob.length := by
  induction rest with
  | nil =>
    intro s h
    exact ⟨by simp, h⟩
  | cons c t ih =>
    intro s h
    simp only [List.foldl_cons]
    obtain ⟨hinv, hblob⟩ := And.intro (appendChunk_spec true s c h).1
      (appendChunk_spec true s c h).2
    obtain ⟨hb, hf⟩ := ih (appendChunk true s c) hinv
    refine ⟨?_, hf⟩
    rw [hb, hblob]
    simp [List.append_assoc]

theorem processSession_spec (chunks : List (List Nat)) :
    (processSession chunks).blob = (writtenBytes chunks).flatten ∧
    (processSession chunks).file_size = (processSession chunks).blob.length := by
  cases chunks with
  | nil => exact ⟨rfl, rfl⟩
  | cons c rest =>
    have hinit := appendChunk_spec false ⟨0, []⟩ c rfl
    obtain ⟨hb, hf⟩ := foldl_appendChunk rest (appendChunk false ⟨0, []⟩ c) hinit.1
    refine ⟨?_, hf⟩
    unfold processSession writtenBytes
    rw [hb, hinit.2]
    simp

/-- Claim C2 (functional_correctness): a chunk appended to an existing session
that starts with the RIFF magic and is strictly longer than 44 bytes has
exactly its first 44 bytes stripped; the first write of a new session is
written as-is; and after any sequence of appends, the Recording's
`file_size` equals the sum of the lengths of the bytes actually written,
which equals the backing object's length. -/
theorem claim_C2_append_accounting :
    (∀ chunk : List Nat, startsRIFF chunk = true → 44 < chunk.length →
      dataToWrite true chunk = chunk.drop 44) ∧
    (∀ chunk : List Nat, dataToWrite false chunk = chunk) ∧
    (∀ chunks : List (List Nat),
      (processSession chunks).file_size =
        ((writtenBytes chunks).map (fun w => w.length)).sum ∧
      (processSession chunks).file_size = (processSession chunks).blob.length ∧
      (processSession chunks).blob = (writtenBytes chunks).flatten) := by
  refine ⟨?_, ?_, ?_⟩
  · intro chunk hR hlen
    unfold dataToWrite
    rw [if_pos ⟨rfl, hlen, hR⟩]
  · intro chunk
    unfold dataToWrite
    rw [if_neg (fun hc => by simpa using hc.1)]
  · intro chunks
    obtain ⟨hb, hf⟩ := processSession_spec chunks
    refine ⟨?_, hf, hb⟩
    rw [hf, hb]
    simp [List.length_flatten]

/-- Witness for **C2** at a concrete two-chunk session: the second chunk
re-sends a 44-byte RIFF header, which is stripped. -/
theorem claim_C2_append_accounting_witness :
    dataToWrite true (riffMagic ++ List.replicate 41 7) =
      (riffMagic ++ List.replicate 41 7).drop 44 ∧
    dataToWrite false (riffMagic ++ List.replicate 41 7) =
      riffMagic ++ List.replicate 41 7 ∧
    (processSession [riffMagic ++ List.replicate 41 7,
        riffMagic ++ List.replicate 41 7]).file_size =
      (processSession [riffMagic ++ List.replicate 41 7,
        riffMagic ++ List.replicate 41 7]).blob.length := by
  refine ⟨?_, ?_, ?_⟩
  · exact claim_C2_append_accounting.1 _ (by decide) (by decide)
  · exact claim_C2_append_accounting.2.1 _
  · exact (claim_C2_append_accounting.2.2 _).2.1

/-! ## Claim C3: cross-stream linking -/

/-- Claim C3 counterexample: with one active processing mic session 1000
seconds old and a capture from device `CAM9`, the claimed priority rule
(deviceId match, then 5-minute recency, then unassigned) yields
`"unassigned"`, but the code links the capture to the stale session: the
first query of `upload_image` never filters by the capture's device id and
has no recency bound. -/
theorem claim_C3_counterexample :
    upload_image_link [staleMic] 1000 = "mStale" ∧
    claimedImageLink "CAM9" [staleMic] 1000 = "unassigned" ∧
    ("mStale" : String) ≠ "unassigned" := by
  refine ⟨by decide, by decide, by decide⟩

/-- Claim C3 amended (functional_correctness): the Cross-Stream Linker ignores
the capture's device identifier entirely.  It assigns the most recent
Recording with `device_type = mic`, `session_active = true`,
`status = processing` regardless of deviceId; failing that, the most recent
mic Recording with `status = processing` whose upload timestamp lies within
the last 5 minutes; otherwise `"unassigned"`. -/
theorem claim_C3_amended_link_rule (db : List Meeting) (now : Nat) :
    ((∃ m ∈ db, (m.session_active && m.status == "processing" &&
        m.device_type == "mic") = true) →
      ∃ b ∈ db, upload_image_link db now = b.id ∧
        (b.session_active && b.status == "processing" &&
          b.device_type == "mic") = true ∧
        ∀ x ∈ db, (x.session_active && x.status == "processing" &&
          x.device_type == "mic") = true →
          x.upload_timestamp ≤ b.upload_timestamp) ∧
    ((∀ m ∈ db, (m.session_active && m.status == "processing" &&
        m.device_type == "mic") = false) →
      (∃ m ∈ db, (m.status == "processing" && m.device_type == "mic" &&
        decide (now - 300 ≤ m.upload_timestamp)) = true) →
      ∃ b ∈ db, upload_image_link db now = b.id ∧
        (b.status == "processing" && b.device_type == "mic" &&
          decide (now - 300 ≤ b.upload_timestamp)) = true ∧
        ∀ x ∈ db, (x.status == "processing" && x.device_type == "mic" &&
          decide (now - 300 ≤ x.upload_timestamp)) = true →
          x.upload_timestamp ≤ b.upload_timestamp) ∧
    ((∀ m ∈ db, (m.session_active && m.status == "processing" &&
        m.device_type == "mic") = false) →
      (∀ m ∈ db, (m.status == "processing" && m.device_type == "mic" &&
        decide (now - 300 ≤ m.upload_timestamp)) = false) →
      upload_image_link db now = "unassigned") := by
  refine ⟨?_, ?_, ?_⟩
  · intro ⟨m, hm, hpm⟩
    cases hq : queryLatest (fun m => m.session_active && m.status == "processing" &&
        m.device_type == "mic") db with
    | none =>
      have hf := (queryLatest_none_iff _ db).mp hq m hm
      rw [hpm] at hf
      exact absurd hf (by decide)
    | some b =>
      obtain ⟨hbm, hpb, hmax⟩ := queryLatest_some_spec _ db b hq
      refine ⟨b, hbm, ?_, hpb, hmax⟩
      unfold upload_image_link
      rw [hq]
  · intro hnone ⟨m, hm, hpm⟩
    have hq1 : queryLatest (fun m => m.session_active && m.status == "processing" &&
        m.device_type == "mic") db = none := (queryLatest_none_iff _ db).mpr hnone
    cases hq : queryLatest (fun m => m.status == "processing" &&
        m.device_type == "mic" && decide (now - 300 ≤ m.upload_timestamp)) db with
    | none =>
      have hf := (queryLatest_none_iff _ db).mp hq m hm
      rw [hpm] at hf
      exact absurd hf (by decide)
    | some b =>
      obtain ⟨hbm, hpb, hmax⟩ := queryLatest_some_spec _ db b hq
      refine ⟨b, hbm, ?_, hpb, hmax⟩
      unfold upload_image_link
      rw [hq1, hq]
  · intro h1 h2
    unfold upload_image_link
    rw [(queryLatest_none_iff _ db).mpr h1, (queryLatest_none_iff _ db).mpr h2]

/-- Witness for **C3 amended** at a concrete table. -/
theorem claim_C3_amended_link_rule_witness :
    upload_image_link [staleMic] 100 = "mStale" ∧
    upload_image_link [] 100 = "unassigned" := by
  constructor
  · obtain ⟨b, hb, he, _, _⟩ := (claim_C3_amended_link_rule [staleMic] 100).1
      ⟨staleMic, by decide, by decide⟩
    rcases List.mem_singleton.mp hb with rfl
    exact he
  · exact (claim_C3_amended_link_rule [] 100).2.2 (by simp) (by simp)

/-! ## Claim C4: finalize semantics -/

/-- Claim C4 counterexample: `end_session` (finalize by Recording id) does not
check `session_active`.  Called on an already-finalized Recording (ended at
time 10) it succeeds — no "no active session" rejection — and overwrites
`session_end_timestamp` with the new time 20. -/
theorem claim_C4_counterexample :
    (end_session [inactiveMeeting] "m1" 20).2 = none ∧
    (end_session [inactiveMeeting] "m1" 20).1 =
      [{ inactiveMeeting with session_end_timestamp := some 20 }] ∧
    inactiveMeeting.session_end_timestamp = some 10 ∧
    some 20 ≠ some 10 := by
  refine ⟨by decide, by decide, by decide, by decide⟩

/-- Claim C4 amended (error_handling): only the by-deviceId path
(`end_session_by_mac`) rejects finalize with a "no active session" error
when the device has no active processing mic session — in particular a
second by-mac call after a successful finalize is rejected and changes
nothing.  The by-id path (`end_session`) never checks `session_active`: it
re-finalizes unconditionally, setting `session_end_timestamp` to the time of
each call, so a second by-id call does change `sessionEndedAt`. -/
theorem claim_C4_amended_finalize :
    (∀ (db : List Meeting) (mac : String) (now : Nat),
      (∀ m ∈ db, livePred (some mac) m = false) →
      end_session_by_mac db mac now =
        (db, some "No active session found for this MAC")) ∧
    (∀ (db : List Meeting) (mac : String) (now now2 : Nat),
      (∀ x ∈ db, ∀ y ∈ db, livePred (some mac) x = true →
        livePred (some mac) y = true → x.id = y.id) →
      (end_session_by_mac db mac now).2 = none →
      end_session_by_mac ((end_session_by_mac db mac now).1) mac now2 =
        ((end_session_by_mac db mac now).1,
         some "No active session found for this MAC")) ∧
    (∀ (db : List Meeting) (mid : String) (now : Nat) (m : Meeting),
      db.find? (fun x => x.id == mid) = some m →
      (end_session db mid now).2 = none ∧
      ∀ x ∈ db, x.id = mid →
        { x with session_active := false, session_end_timestamp := some now } ∈
          (end_session db mid now).1) := by
  refine ⟨?_, ?_, ?_⟩
  · intro db mac now h
    unfold end_session_by_mac
    rw [(queryLatest_none_iff _ db).mpr h]
  · intro db mac now now2 huniq hok
    unfold end_session_by_mac at hok ⊢
    cases hq : queryLatest (livePred (some mac)) db with
    | none =>
      rw [hq] at hok
      simp at hok
    | some b =>
      dsimp only
      obtain ⟨hbm, hpb, _⟩ := queryLatest_some_spec _ db b hq
      have hnone : queryLatest (livePred (some mac))
          (updateById b.id (fun x =>
            { x with session_active := false,
                     session_end_timestamp := some now }) db) = none := by
        apply (queryLatest_none_iff _ _).mpr
        intro y hy
        unfold updateById at hy
        obtain ⟨x, hx, rfl⟩ := List.mem_map.mp hy
        by_cases hid : x.id = b.id
        · rw [if_pos hid]
          simp [livePred]
        · rw [if_neg hid]
          cases hpx : livePred (some mac) x with
          | false => rfl
          | true => exact absurd (huniq x hx b hbm hpx hpb) hid
      rw [hnone]
  · intro db mid now m hfind
    unfold end_session
    rw [hfind]
    refine ⟨rfl, ?_⟩
    intro x hx hid
    dsimp only
    unfold updateById
    refine List.mem_map.mpr ⟨x, hx, ?_⟩
    dsimp only
    rw [if_pos hid]

/-- Witness for **C4 amended**: concrete finalized table rejects by-mac, and
by-id succeeds on an existing row. -/
theorem claim_C4_amended_finalize_witness :
    end_session_by_mac [inactiveMeeting] "D1" 20 =
      ([inactiveMeeting], some "No active session found for this MAC") ∧
    (end_session [sampleMeeting] "m1" 20).2 = none := by
  constructor
  · exact claim_C4_amended_finalize.1 [inactiveMeeting] "D1" 20 (by decide)
  · exact (claim_C4_amended_finalize.2.2 [sampleMeeting] "m1" 20 sampleMeeting
      (by decide)).1

/-! ## Claim C8: stuck-session requeue -/

theorem requeued_count (db : List Meeting) (m : Meeting)
    (hids : (db.map (fun x => x.id)).Nodup) (hm : m ∈ db) :
    ((db.filter (fun x => x.status == "processing")).map (fun x => x.id)).count
        m.id =
      if m.status = "processing" then 1 else 0 := by
  induction db with
  | nil => cases hm
  | cons a rest ih =>
    rw [List.map_cons] at hids
    have hnd := List.nodup_cons.mp hids
    rcases List.mem_cons.mp hm with rfl | hm2
    · have hnot : ∀ x ∈ rest, x.id ≠ m.id := by
        intro x hx he
        exact hnd.1 (he ▸ List.mem_map_of_mem (fun y => y.id) hx)
      have hrest0 : ((rest.filter (fun x => x.status == "processing")).map
          (fun x => x.id)).count m.id = 0 := by
        rw [List.count_eq_zero]
        intro hmem
        obtain ⟨x, hxf, hxid⟩ := List.mem_map.mp hmem
        exact hnot x (List.mem_of_mem_filter hxf) hxid
      by_cases hp : m.status = "processing"
      · rw [if_pos hp, List.filter_cons_of_pos (by simp [hp]), List.map_cons,
          List.count_cons_self, hrest0]
      · rw [if_neg hp, List.filter_cons_of_neg (by simp [hp])]
        exact hrest0
    · have hne : m.id ≠ a.id := by
        intro he
        exact hnd.1 (he ▸ List.mem_map_of_mem (fun y => y.id) hm2)
      have ihr := ih hnd.2 hm2
      by_cases hpa : a.status = "processing"
      · rw [List.filter_cons_of_pos (by simp [hpa]), List.map_cons,
          List.count_cons_of_ne hne]
        exact ihr
      · rw [List.filter_cons_of_neg (by simp [hpa])]
        exact ihr

/-- Claim C8 (functional_correctness): after the stuck-session requeue pass,
every Recording that was `processing` has `session_active = false` and has
been re-queued for the AI pipeline exactly once, while `completed` and
`failed` Recordings are unchanged and not re-queued.  Primary-key uniqueness
of `id` is assumed. -/
theorem claim_C8_requeue (db : List Meeting)
    (hids : (db.map (fun x => x.id)).Nodup) :
    (∀ m ∈ db, m.status = "processing" →
      { m with session_active := false } ∈ (requeue_stuck_meetings db).1 ∧
      (requeue_stuck_meetings db).2.count m.id = 1) ∧
    (∀ m ∈ db, m.status = "completed" ∨ m.status = "failed" →
      m ∈ (requeue_stuck_meetings db).1 ∧
      (requeue_stuck_meetings db).2.count m.id = 0) := by
  constructor
  · intro m hm hp
    constructor
    · unfold requeue_stuck_meetings
      refine List.mem_map.mpr ⟨m, hm, ?_⟩
      rw [if_pos hp]
    · unfold requeue_stuck_meetings
      rw [requeued_count db m hids hm, if_pos hp]
  · intro m hm hcf
    have hp : ¬ m.status = "processing" := by
      rcases hcf with h | h <;> rw [h] <;> decide
    constructor
    · unfold requeue_stuck_meetings
      refine List.mem_map.mpr ⟨m, hm, ?_⟩
      rw [if_neg hp]
    · unfold requeue_stuck_meetings
      rw [requeued_count db m hids hm, if_neg hp]

/-- Witness for **C8** at a concrete two-row table. -/
theorem claim_C8_requeue_witness :
    ({ staleMic with session_active := false } ∈
      (requeue_stuck_meetings [staleMic, failedMeeting]).1 ∧
      (requeue_stuck_meetings [staleMic, failedMeeting]).2.count "mStale" = 1) ∧
    (failedMeeting ∈ (requeue_stuck_meetings [staleMic, failedMeeting]).1 ∧
      (requeue_stuck_meetings [staleMic, failedMeeting]).2.count "m1" = 0) := by
  constructor
  · exact (claim_C8_requeue [staleMic, failedMeeting] (by decide)).1 staleMic
      (by decide) rfl
  · exact (claim_C8_requeue [staleMic, failedMeeting] (by decide)).2 failedMeeting
      (by decide) (Or.inr rfl)

/-! ## Claim C9: undersized audio -/

/-- Claim C9 (error_handling): a persisted audio object smaller than the
1024-byte minimum threshold — a 500-byte upload included — never reaches the
Transcriber: `process_meeting` returns without invoking it and marks the
Recording `failed` with the "Audio recording too short." reason. -/
theorem claim_C9_too_short (m : Meeting) (sz : Nat) (hsz : sz < 1024)
    (transcriber : Nat → String) (summarizer : String → String) (now : Nat) :
    process_meeting m (some sz) transcriber summarizer now =
      ({ m with status := "failed",
                summary := some "Audio recording too short." }, false) := by
  unfold process_meeting
  dsimp only
  rw [if_pos hsz]

/-- Witness for **C9** at a concrete 500-byte object. -/
theorem claim_C9_too_short_witness :
    process_meeting sampleMeeting (some 500) (fun _ => "t") (fun _ => "s") 7 =
      ({ sampleMeeting with status := "failed",
                            summary := some "Audio recording too short." },
       false) :=
  claim_C9_too_short sampleMeeting 500 (by decide) (fun _ => "t") (fun _ => "s") 7

/-! ## Claim C10: reprocess -/

/-- Claim C10 (error_handling): reprocessing a `completed` Meeting is rejected
with a 400 "Meeting already completed" error and the table is unchanged; for
a `processing` or `failed` Meeting, reprocess succeeds, and the Meeting's row
keeps its `id`, `filename` and `file_path` while `status` becomes
`processing` and `session_active` becomes `false` (every other row is
untouched). -/
theorem claim_C10_reprocess (db : List Meeting) (mid : String) (m : Meeting)
    (hfind : db.find? (fun x => x.id == mid) = some m) :
    (m.status = "completed" →
      reprocess_meeting db mid = (db, some (400, "Meeting already completed"))) ∧
    (m.status = "processing" ∨ m.status = "failed" →
      (reprocess_meeting db mid).2 = none ∧
      ∀ x ∈ db, ∃ y ∈ (reprocess_meeting db mid).1,
        y.id = x.id ∧ y.filename = x.filename ∧ y.file_path = x.file_path ∧
        (x.id = mid → y.status = "processing" ∧ y.session_active = false) ∧
        (x.id ≠ mid → y = x)) := by
  constructor
  · intro hc
    unfold reprocess_meeting
    rw [hfind]
    dsimp only
    rw [if_pos hc]
  · intro hpf
    have hnc : ¬ m.status = "completed" := by
      rcases hpf with h | h <;> rw [h] <;> decide
    unfold reprocess_meeting
    rw [hfind]
    dsimp only
    rw [if_neg hnc]
    refine ⟨rfl, ?_⟩
    intro x hx
    refine ⟨(fun z => if z.id = mid then
        { z with status := "processing", session_active := false } else z) x,
      List.mem_map_of_mem _ hx, ?_⟩
    dsimp only
    by_cases hid : x.id = mid
    · rw [if_pos hid]
      exact ⟨rfl, rfl, rfl, fun _ => ⟨rfl, rfl⟩, fun hne => absurd hid hne⟩
    · rw [if_neg hid]
      exact ⟨rfl, rfl, rfl, fun hmid => absurd hmid hid, fun _ => rfl⟩

/-- Witness for **C10**: a failed row reprocesses; a completed row is
rejected with the 400 error and an unchanged table. -/
theorem claim_C10_reprocess_witness :
    (reprocess_meeting [failedMeeting] "m1").2 = none ∧
    reprocess_meeting [{ sampleMeeting with status := "completed" }] "m1" =
      ([{ sampleMeeting with status := "completed" }],
       some (400, "Meeting already completed")) := by
  constructor
  · exact ((claim_C10_reprocess [failedMeeting] "m1" failedMeeting
      (by decide)).2 (Or.inr rfl)).1
  · exact (claim_C10_reprocess [{ sampleMeeting with status := "completed" }]
      "m1" { sampleMeeting with status := "completed" } (by decide)).1 rfl

/-! ## Claim C5: live-stream session resolution -/

theorem queryLatest_congr (p q : Meeting → Bool) (db : List Meeting)
    (h : ∀ m ∈ db, p m = q m) : queryLatest p db = queryLatest q db := by
  induction db with
  | nil => rfl
  | cons m rest ih =>
    simp only [queryLatest]
    rw [ih (fun x hx => h x (List.mem_cons_of_mem m hx)),
      h m (List.mem_cons_self m rest)]

/-- Claim C5 (functional_correctness): a live-stream chunk request with a
device id selects the existing Recording with that deviceId,
`status = processing`, `sessionActive = true` for the append path when one
exists (on a table whose rows are all mic rows, as every reachable table
is); otherwise it constructs a new Recording with the fresh id, a fresh
storage key (distinct from every existing key, given uuid uniqueness of the
fresh token), `status = processing`, `sessionActive = true`, `byteSize = 0`,
and the new Recording is already persisted in the table returned by the
resolution phase, which runs before any byte of the body is read or
written (lines 424–457 precede lines 466–577). -/
theorem claim_C5_live_session_resolution (db : List Meeting)
    (mac : Option String) (freshId freshTok : String) (now : Nat)
    (hmac : macPresent mac = true)
    (hmic : ∀ m ∈ db, m.device_type = "mic") :
    (∀ m : Meeting, queryLatest (claimedLivePred mac) db = some m →
      resolveSession db "live.wav" mac freshId freshTok now =
        ⟨db, some m, true, m.filename, "live.wav"⟩) ∧
    (queryLatest (claimedLivePred mac) db = none →
      (∀ m ∈ db, m.file_path ≠ "live_stream_" ++ freshTok ++ ".wav") →
      resolveSession db "live.wav" mac freshId freshTok now =
        ⟨db ++ [newLiveMeeting mac freshId freshTok now],
         some (newLiveMeeting mac freshId freshTok now), false,
         "live_stream_" ++ freshTok ++ ".wav", "live.wav"⟩ ∧
      (newLiveMeeting mac freshId freshTok now).id = freshId ∧
      (newLiveMeeting mac freshId freshTok now).status = "processing" ∧
      (newLiveMeeting mac freshId freshTok now).session_active = true ∧
      (newLiveMeeting mac freshId freshTok now).file_size = 0 ∧
      (newLiveMeeting mac freshId freshTok now).mac_address = mac ∧
      newLiveMeeting mac freshId freshTok now ∈
        (resolveSession db "live.wav" mac freshId freshTok now).db ∧
      ∀ m ∈ db, m.file_path ≠
        (newLiveMeeting mac freshId freshTok now).file_path) := by
  have hq : queryLatest (claimedLivePred mac) db =
      queryLatest (livePred mac) db :=
    queryLatest_congr _ _ db (fun m hm => by
      simp [claimedLivePred, livePred, hmic m hm, Bool.and_assoc, Bool.and_comm])
  constructor
  · intro m hsome
    rw [hq] at hsome
    unfold resolveSession
    rw [if_pos ⟨rfl, hmac⟩, hsome]
  · intro hnone hfresh
    rw [hq] at hnone
    have hres : resolveSession db "live.wav" mac freshId freshTok now =
        ⟨db ++ [newLiveMeeting mac freshId freshTok now],
         some (newLiveMeeting mac freshId freshTok now), false,
         "live_stream_" ++ freshTok ++ ".wav", "live.wav"⟩ := by
      unfold resolveSession
      rw [if_pos ⟨rfl, hmac⟩, hnone]
    refine ⟨hres, rfl, rfl, rfl, rfl, rfl, ?_, hfresh⟩
    rw [hres]
    simp

/-- Witness for **C5**: with one matching session the request appends to it;
with an empty table the resolution phase returns a table already holding the
new active `processing` row with `file_size = 0`. -/
theorem claim_C5_live_session_resolution_witness :
    resolveSession [sampleMeeting] "live.wav" (some "D1") "f1" "t1" 9 =
      ⟨[sampleMeeting], some sampleMeeting, true, "a.wav", "live.wav"⟩ ∧
    resolveSession [] "live.wav" (some "D1") "f1" "t1" 9 =
      ⟨[newLiveMeeting (some "D1") "f1" "t1" 9],
       some (newLiveMeeting (some "D1") "f1" "t1" 9), false,
       "live_stream_t1.wav", "live.wav"⟩ := by
  constructor
  · exact (claim_C5_live_session_resolution [sampleMeeting] (some "D1") "f1" "t1" 9
      (by decide) (by decide)).1 sampleMeeting (by decide)
  · exact ((claim_C5_live_session_resolution [] (some "D1") "f1" "t1" 9
      (by decide) (by simp)).2 (by decide) (by simp)).1

/-! ## Claim C1: at-most-one active session per device -/

theorem dbInv_nil : dbInv [] := by
  constructor
  · intro m hm
    cases hm
  · intro d
    simp [List.countP_nil]

theorem dbInv_of_map (db : List Meeting) (g : Meeting → Meeting)
    (hg : ∀ m ∈ db, (g m).device_type = m.device_type ∧
      ∀ d, c1Pred d (g m) = true → c1Pred d m = true)
    (hinv : dbInv db) : dbInv (db.map g) := by
  constructor
  · intro y hy
    obtain ⟨x, hx, rfl⟩ := List.mem_map.mp hy
    rw [(hg x hx).1]
    exact hinv.1 x hx
  · intro d
    calc (db.map g).countP (c1Pred d) = db.countP (c1Pred d ∘ g) :=
          List.countP_map _ _ _
      _ ≤ db.countP (c1Pred d) :=
          List.countP_mono_left (fun a ha hpa => (hg a ha).2 d hpa)
      _ ≤ 1 := hinv.2 d

/-- Appending the freshly created live session preserves the invariant: the
new-session path runs only when the device has no active processing mic
session, and on an all-mic table that means no counted row at all for that
device. -/
theorem dbInv_append_newLive (db : List Meeting) (mac : Option String)
    (f1 f2 : String) (now : Nat)
    (hq : queryLatest (livePred mac) db = none) (hinv : dbInv db) :
    dbInv (db ++ [newLiveMeeting mac f1 f2 now]) := by
  have hz : db.countP (c1Pred mac) = 0 := by
    rw [List.countP_eq_zero]
    intro m hm hpm
    have hlive := (queryLatest_none_iff _ db).mp hq m hm
    have hmic : m.device_type = "mic" := hinv.1 m hm
    simp only [c1Pred, Bool.and_eq_true] at hpm
    rw [show livePred mac m = true from by
      simp [livePred, hmic, hpm.1.1, hpm.1.2, hpm.2]] at hlive
    exact absurd hlive (by decide)
  constructor
  · intro y hy
    rcases List.mem_append.mp hy with h | h
    · exact hinv.1 y h
    · rw [List.mem_singleton.mp h]
      rfl
  · intro d
    rw [List.countP_append]
    by_cases hd : d = mac
    · subst hd
      have hone : List.countP (c1Pred d) [newLiveMeeting d f1 f2 now] ≤ 1 := by
        simp only [List.countP_cons, List.countP_nil]
        split <;> omega
      omega
    · have hpred : c1Pred d (newLiveMeeting mac f1 f2 now) = false := by
        cases hp : c1Pred d (newLiveMeeting mac f1 f2 now) with
        | false => rfl
        | true =>
          simp only [c1Pred, newLiveMeeting, Bool.and_eq_true, beq_iff_eq] at hp
          exact absurd hp.1.1.symm hd
      have hzero : List.countP (c1Pred d) [newLiveMeeting mac f1 f2 now] = 0 := by
        simp [List.countP_cons, List.countP_nil, hpred]
      have := hinv.2 d
      omega

theorem dbInv_upload_live (db : List Meeting) (mac : Option String)
    (body : List Nat) (f1 f2 f3 f4 : String) (now : Nat)
    (hmac : macPresent mac = true) (hinv : dbInv db) :
    dbInv (upload_chunk db (some "live.wav") mac body f1 f2 f3 f4 now) := by
  have heff : effectiveFilename (some "live.wav") f4 = "live.wav" := by
    unfold effectiveFilename
    dsimp only
    rw [if_neg (by decide)]
  unfold upload_chunk
  rw [heff]
  unfold upload_chunk_body
  cases hq : queryLatest (livePred mac) db with
  | some m =>
    have hres : resolveSession db "live.wav" mac f1 f2 now =
        ⟨db, some m, true, m.filename, "live.wav"⟩ := by
      unfold resolveSession
      rw [if_pos ⟨rfl, hmac⟩, hq]
    rw [hres]
    dsimp only
    split
    · exact hinv
    · split
      · exact hinv
      · unfold updateById
        refine dbInv_of_map db _ (fun x hx => ⟨?_, ?_⟩) hinv
        · dsimp only
          split <;> rfl
        · intro d hpa
          dsimp only at hpa
          by_cases hid : x.id = m.id
          · rw [if_pos hid] at hpa
            exact hpa
          · rw [if_neg hid] at hpa
            exact hpa
  | none =>
    have hres : resolveSession db "live.wav" mac f1 f2 now =
        ⟨db ++ [newLiveMeeting mac f1 f2 now],
         some (newLiveMeeting mac f1 f2 now), false,
         "live_stream_" ++ f2 ++ ".wav", "live.wav"⟩ := by
      unfold resolveSession
      rw [if_pos ⟨rfl, hmac⟩, hq]
    rw [hres]
    dsimp only
    have hinv2 := dbInv_append_newLive db mac f1 f2 now hq hinv
    split
    · exact hinv2
    · split
      · exact hinv2
      · unfold updateById
        refine dbInv_of_map _ _ (fun x hx => ⟨?_, ?_⟩) hinv2
        · dsimp only
          split <;> rfl
        · intro d hpa
          dsimp only at hpa
          by_cases hid : x.id = (newLiveMeeting mac f1 f2 now).id
          · rw [if_pos hid] at hpa
            exact hpa
          · rw [if_neg hid] at hpa
            exact hpa

theorem dbInv_step (db : List Meeting) (op : SessionOp) (hop : liveOnlyOp op)
    (hinv : dbInv db) : dbInv (stepOp db op) := by
  cases op with
  | upload fn mac body f1 f2 f3 f4 now =>
    have hop2 : fn = some "live.wav" ∧ macPresent mac = true := hop
    obtain ⟨rfl, hmac⟩ := hop2
    exact dbInv_upload_live db mac body f1 f2 f3 f4 now hmac hinv
  | endById mid now =>
    unfold stepOp end_session
    dsimp only
    cases hf : db.find? (fun m => m.id == mid) with
    | none => exact hinv
    | some m =>
      dsimp only
      unfold updateById
      refine dbInv_of_map db _ (fun x hx => ⟨?_, ?_⟩) hinv
      · dsimp only
        split <;> rfl
      · intro d hpa
        dsimp only at hpa
        by_cases hid : x.id = mid
        · rw [if_pos hid] at hpa
          simp [c1Pred] at hpa
        · rw [if_neg hid] at hpa
          exact hpa
  | endByMac mac now =>
    unfold stepOp end_session_by_mac
    dsimp only
    cases hq : queryLatest (livePred (some mac)) db with
    | none => exact hinv
    | some m =>
      dsimp only
      unfold updateById
      refine dbInv_of_map db _ (fun x hx => ⟨?_, ?_⟩) hinv
      · dsimp only
        split <;> rfl
      · intro d hpa
        dsimp only at hpa
        by_cases hid : x.id = m.id
        · rw [if_pos hid] at hpa
          simp [c1Pred] at hpa
        · rw [if_neg hid] at hpa
          exact hpa
  | reprocess mid =>
    unfold stepOp reprocess_meeting
    dsimp only
    cases hf : db.find? (fun m => m.id == mid) with
    | none => exact hinv
    | some m =>
      dsimp only
      split
      · exact hinv
      · unfold updateById
        refine dbInv_of_map db _ (fun x hx => ⟨?_, ?_⟩) hinv
        · dsimp only
          split <;> rfl
        · intro d hpa
          dsimp only at hpa
          by_cases hid : x.id = mid
          · rw [if_pos hid] at hpa
            simp [c1Pred] at hpa
          · rw [if_neg hid] at hpa
            exact hpa
  | requeue =>
    unfold stepOp requeue_stuck_meetings
    dsimp only
    refine dbInv_of_map db _ (fun x hx => ⟨?_, ?_⟩) hinv
    · dsimp only
      split <;> rfl
    · intro d hpa
      by_cases hst : x.status = "processing"
      · rw [if_pos hst] at hpa
        simp [c1Pred] at hpa
      · rw [if_neg hst] at hpa
        exact hpa

theorem dbInv_foldl (ops : List SessionOp) :
    ∀ db, dbInv db → (∀ op ∈ ops, liveOnlyOp op) →
      dbInv (ops.foldl stepOp db) := by
  induction ops with
  | nil =>
    intro db h _
    exact h
  | cons op rest ih =>
    intro db h hops
    simp only [List.foldl_cons]
    exact ih _ (dbInv_step db op (hops op (List.mem_cons_self op rest)) h)
      (fun o ho => hops o (List.mem_cons_of_mem op ho))

/-- Claim C1 counterexample: the invariant as claimed — over all chunk uploads
— fails.  Device `D1` starts a live session, then uploads a non-live file
(`a.wav`) with the same mac: the non-live path creates a second row with
`mac_address = D1` whose `session_active` takes the column default `True`
and whose status is `processing`, so two rows now match. -/
theorem claim_C1_counterexample :
    activeProcessingCount (some "D1")
      (runOps
        [SessionOp.upload (some "live.wav") (some "D1") [] "i1" "t1" "i2" "t2" 1,
         SessionOp.upload (some "a.wav") (some "D1") [7] "i3" "t3" "i4" "t4" 2]) =
      2 := by decide

/-- Claim C1 amended (invariants): for every device `D`, at every observation
point reachable from an empty table by a sequence of operations in which
every chunk upload is a live-stream upload (`filename = "live.wav"`) with a
device mac present — finalizations, reprocess and the recovery sweep
unrestricted — the number of Meeting rows with `mac_address = D`,
`session_active = true` and `status = "processing"` is at most 1. -/
theorem claim_C1_amended_at_most_one_active (ops : List SessionOp)
    (hops : ∀ op ∈ ops, liveOnlyOp op) (d : Option String) :
    activeProcessingCount d (runOps ops) ≤ 1 :=
  (dbInv_foldl ops [] dbInv_nil hops).2 d

/-- Witness for **C1 amended**: a live session, a second live chunk, a
finalize and a recovery sweep leave at most one active processing row. -/
theorem claim_C1_amended_at_most_one_active_witness :
    activeProcessingCount (some "D1")
      (runOps
        [SessionOp.upload (some "live.wav") (some "D1") [] "i1" "t1" "i2" "t2" 1,
         SessionOp.upload (some "live.wav") (some "D1") [7] "i3" "t3" "i4" "t4" 2,
         SessionOp.endByMac "D1" 3,
         SessionOp.requeue]) ≤ 1 :=
  claim_C1_amended_at_most_one_active _
    (by
      intro op hop
      rcases List.mem_cons.mp hop with rfl | hop
      · exact ⟨rfl, by decide⟩
      rcases List.mem_cons.mp hop with rfl | hop
      · exact ⟨rfl, by decide⟩
      rcases List.mem_cons.mp hop with rfl | hop
      · exact trivial
      rcases List.mem_cons.mp hop with rfl | hop
      · exact trivial
      · cases hop)
    (some "D1")

end STT

